import Mathlib

/-!
Verification development for the LuminariGUI release-management script
(`create_package.py`).  The Python source is shallowly embedded: pure
string/regex computations become Lean functions on `List Char`/`String`,
the filesystem and the external git tool become an explicit `World`
record threaded through each embedded function, and subprocess behaviour
is an explicit outcome value.  Exceptions are modelled with `Option` /
`Except` where the Python control flow depends on them.
-/

namespace LuminariGUI

/-! ## Basic string helpers (Python `in`, `str.replace`, prefixes) -/

/-- `leadMatch need hay` is true when `need` is a leading segment of `hay`
(Python: `hay.startswith(need)` on char lists). -/
def leadMatch : List Char → List Char → Bool
  | [], _ => true
  | _ :: _, [] => false
  | a :: as, b :: bs => a = b && leadMatch as bs

/-- `dropLead need hay` removes the leading segment `need` from `hay`,
returning the remainder, or `none` when `hay` does not start with `need`. -/
def dropLead : List Char → List Char → Option (List Char)
  | [], l => some l
  | _ :: _, [] => none
  | a :: as, b :: bs => if a = b then dropLead as bs else none

theorem dropLead_eq_append : ∀ (n l r : List Char), dropLead n l = some r → l = n ++ r
  | [], l, r, h => by
      simp only [dropLead, Option.some.injEq] at h
      simp [h]
  | a :: as, [], r, h => by simp [dropLead] at h
  | a :: as, b :: bs, r, h => by
      by_cases hab : a = b
      · subst hab
        simp only [dropLead, if_pos rfl] at h
        simpa using dropLead_eq_append as bs r h
      · simp [dropLead, hab] at h

theorem dropLead_length {n l r : List Char} (h : dropLead n l = some r) :
    r.length + n.length = l.length := by
  have := dropLead_eq_append n l r h
  subst this
  simp [Nat.add_comm]

/-- Python substring test `need in hay` over char lists. -/
def hasSeg (need : List Char) : List Char → Bool
  | [] => need.isEmpty
  | c :: t => leadMatch need (c :: t) || hasSeg need t

/-- Python substring test `need in hay` on strings. -/
def strHas (hay need : String) : Bool := hasSeg need.toList hay.toList

/-- Python `s.replace(need, repl)` (replaces every non-overlapping
occurrence, scanning left to right), written with structural fuel so it
reduces in the kernel; every step consumes at least one character, so
`fuel = l.length` (as `replaceSeg` passes) never runs out.  The
`need = []` case never occurs at the call sites (the script always
replaces `".mpackage"`). -/
def replaceSegGo (need repl : List Char) : Nat → List Char → List Char
  | _, [] => []
  | 0, l => l
  | fuel + 1, c :: t =>
    match dropLead need (c :: t) with
    | some rest =>
      if need.isEmpty then c :: replaceSegGo need repl fuel t
      else repl ++ replaceSegGo need repl fuel rest
    | none => c :: replaceSegGo need repl fuel t

def replaceSeg (need repl l : List Char) : List Char :=
  replaceSegGo need repl l.length l

/-- Python `s.replace(need, repl)` on strings. -/
def pyReplace (s need repl : String) : String :=
  (replaceSeg need.toList repl.toList s.toList).asString

/-! ## Version extraction (`get_version_from_changelog`, `get_version_from_xml`)

The changelog regex is `\[([0-9]+\.[0-9]+\.[0-9]+(?:\.[0-9]+)?)\]`.
`parseVerAfterBracket` is the deterministic rendition of the regex body
after the opening bracket: each `[0-9]+` is greedy and is followed by a
character outside the class, so the only backtracking point is the
optional fourth component, which is resolved exactly as the regex engine
does (try the 4-part form, fall back to the 3-part form only when the
character after the third component is `]`). -/

/-- `[0-9]+` at the head of `l`: the greedy nonempty digit run and the
remainder. -/
def parsePart (l : List Char) : Option (List Char × List Char) :=
  match l.span Char.isDigit with
  | (d, r) => if d.isEmpty then none else some (d, r)

/-- Try to match `[0-9]+\.[0-9]+\.[0-9]+(?:\.[0-9]+)?\]` at the head of `l`;
returns the captured version characters and the remainder after `]`.
Each `[0-9]+` is followed by a non-digit, so it is deterministic; the
optional fourth component is attempted exactly when the character after
the third component is `.`, as the regex engine's backtracking resolves. -/
def parseVerAfterBracket (l : List Char) : Option (List Char × List Char) :=
  match parsePart l with
  | none => none
  | some (d1, r1) =>
    match r1 with
    | '.' :: r2 =>
      match parsePart r2 with
      | none => none
      | some (d2, r3) =>
        match r3 with
        | '.' :: r4 =>
          match parsePart r4 with
          | none => none
          | some (d3, r5) =>
            match r5 with
            | ']' :: r6 => some (d1 ++ '.' :: d2 ++ '.' :: d3, r6)
            | '.' :: r6 =>
              match parsePart r6 with
              | none => none
              | some (d4, r7) =>
                match r7 with
                | ']' :: r8 => some (d1 ++ '.' :: d2 ++ '.' :: d3 ++ '.' :: d4, r8)
                | _ => none
            | _ => none
        | _ => none
    | _ => none

/-- All captures of `re.findall(r'\[([0-9]+\.[0-9]+\.[0-9]+(?:\.[0-9]+)?)\]', content)`
in order of occurrence.  After a successful match the scan resumes inside
the matched text; this is equivalent to resuming after it because a
matched region contains no further `[`. -/
def bracketVersions : List Char → List String
  | [] => []
  | c :: rest =>
    if c = '[' then
      match parseVerAfterBracket rest with
      | some (v, _) => v.asString :: bracketVersions rest
      | none => bracketVersions rest
    else bracketVersions rest

/-- `get_version_from_changelog`: `none` input models an unreadable
`CHANGELOG.md` (the exception handler returns `None`); otherwise the first
bracketed numeric version in the content, or `None`. -/
def getVersionFromChangelog (content : Option String) : Option String :=
  match content with
  | none => none
  | some c => (bracketVersions c.toList).head?

/-- The literal part of the regex `<MudletPackage version="([^"]+)"`. -/
def mudletLit : List Char := "<MudletPackage version=\"".toList

/-- `re.search(r'<MudletPackage version="([^"]+)"', line)`: first position
where the literal matches and is followed by a nonempty run of non-quote
characters and a closing quote; the capture is that run. -/
def scanMudlet : List Char → Option String
  | [] => none
  | c :: rest =>
    match dropLead mudletLit (c :: rest) with
    | some after =>
      let (cap, r) := after.span (fun ch => ch ≠ '"')
      if cap.isEmpty then scanMudlet rest
      else
        match r with
        | '"' :: _ => some cap.asString
        | _ => scanMudlet rest
    | none => scanMudlet rest

/-- `get_version_from_xml`: scans the file line by line and returns the
first `MudletPackage version` attribute; `none` input models a read
failure (exception handler returns `None`). -/
def getVersionFromXml (content : Option String) : Option String :=
  match content with
  | none => none
  | some c => (c.splitOn "\n").findSome? (fun line => scanMudlet line.toList)

/-- Python truthiness of an optional string (`None` and `""` are falsy). -/
def pyTruthy (o : Option String) : Bool :=
  match o with
  | none => false
  | some s => !s.isEmpty

/-- Version resolution in `main` (lines 1027-1039): an explicit (truthy)
`--version` argument is used verbatim; otherwise the changelog is tried
first, then the XML header document. -/
def resolveVersion (explicit changelog xml : Option String) : Option String :=
  if pyTruthy explicit then explicit
  else
    let v := getVersionFromChangelog changelog
    if pyTruthy v then v else getVersionFromXml xml

/-- Exit behaviour of the version-resolution step of `main`: exit code 1
when no version could be resolved, 0 when resolution produced one. -/
def mainVersionExit (explicit changelog xml : Option String) : Int :=
  if pyTruthy (resolveVersion explicit changelog xml) then 0 else 1

/-- Modelled from the spec: the required version pattern `N.N.N` or
`N.N.N.N` (full-string match).  The source contains no such validation of
an explicitly supplied version; this definition exists only to state that
absence. -/
def versionPatternOk (v : String) : Bool :=
  match parseVerAfterBracket (v.toList ++ [']']) with
  | some (cap, rest) => cap = v.toList && rest.isEmpty
  | none => false

example : versionPatternOk "2.1.0" = true := by decide
example : versionPatternOk "2.0.4.007" = true := by decide
example : versionPatternOk "banana" = false := by decide
example : versionPatternOk "1.2" = false := by decide
example : getVersionFromChangelog (some "## [2.1.0] - x\n## [2.0.0]") = some "2.1.0" := by decide

/-! ## Lemmas about the bracket-version scanner -/

/-- A bracketed version token: 3 or 4 nonempty all-digit components
separated by dots, exactly the capture shape of the changelog regex. -/
def VersionToken (v : List Char) : Prop :=
  (∃ d1 d2 d3, d1 ≠ [] ∧ d2 ≠ [] ∧ d3 ≠ [] ∧
    (∀ c ∈ d1, c.isDigit) ∧ (∀ c ∈ d2, c.isDigit) ∧ (∀ c ∈ d3, c.isDigit) ∧
    v = d1 ++ '.' :: d2 ++ '.' :: d3) ∨
  (∃ d1 d2 d3 d4, d1 ≠ [] ∧ d2 ≠ [] ∧ d3 ≠ [] ∧ d4 ≠ [] ∧
    (∀ c ∈ d1, c.isDigit) ∧ (∀ c ∈ d2, c.isDigit) ∧ (∀ c ∈ d3, c.isDigit) ∧
    (∀ c ∈ d4, c.isDigit) ∧
    v = d1 ++ '.' :: d2 ++ '.' :: d3 ++ '.' :: d4)

theorem takeWhile_all_append {p : Char → Bool} (d r : List Char)
    (hd : ∀ c ∈ d, p c) (hr : ∀ h t, r = h :: t → p h = false) :
    (d ++ r).takeWhile p = d := by
  induction d with
  | nil =>
    cases r with
    | nil => simp
    | cons h t => simp [List.takeWhile_cons, hr h t rfl]
  | cons a as ih =>
    simp [List.takeWhile_cons, hd a (by simp), ih (fun c hc => hd c (by simp [hc]))]

theorem dropWhile_all_append {p : Char → Bool} (d r : List Char)
    (hd : ∀ c ∈ d, p c) (hr : ∀ h t, r = h :: t → p h = false) :
    (d ++ r).dropWhile p = r := by
  induction d with
  | nil =>
    cases r with
    | nil => simp
    | cons h t => simp [List.dropWhile_cons, hr h t rfl]
  | cons a as ih =>
    simp [List.dropWhile_cons, hd a (by simp), ih (fun c hc => hd c (by simp [hc]))]

theorem parsePart_all (d r : List Char) (hne : d ≠ [])
    (hd : ∀ c ∈ d, c.isDigit) (hr : ∀ h t, r = h :: t → h.isDigit = false) :
    parsePart (d ++ r) = some (d, r) := by
  unfold parsePart
  rw [List.span_eq_take_drop, takeWhile_all_append d r hd hr, dropWhile_all_append d r hd hr]
  simp [hne]

theorem parseVerAfterBracket_token (v suf : List Char) (hv : VersionToken v) :
    parseVerAfterBracket (v ++ ']' :: suf) = some (v, suf) := by
  rcases hv with ⟨d1, d2, d3, h1, h2, h3, p1, p2, p3, rfl⟩ |
    ⟨d1, d2, d3, d4, h1, h2, h3, h4, p1, p2, p3, p4, rfl⟩
  · have e : (d1 ++ '.' :: d2 ++ '.' :: d3) ++ ']' :: suf
        = d1 ++ '.' :: (d2 ++ '.' :: (d3 ++ ']' :: suf)) := by simp
    have s1 := parsePart_all d1 ('.' :: (d2 ++ '.' :: (d3 ++ ']' :: suf))) h1 p1
      (by intro h t ht; cases ht; rfl)
    have s2 := parsePart_all d2 ('.' :: (d3 ++ ']' :: suf)) h2 p2
      (by intro h t ht; cases ht; rfl)
    have s3 := parsePart_all d3 (']' :: suf) h3 p3
      (by intro h t ht; cases ht; rfl)
    rw [e]
    unfold parseVerAfterBracket
    rw [s1]
    simp only []
    rw [s2]
    simp only []
    rw [s3]
    simp
  · have e : (d1 ++ '.' :: d2 ++ '.' :: d3 ++ '.' :: d4) ++ ']' :: suf
        = d1 ++ '.' :: (d2 ++ '.' :: (d3 ++ '.' :: (d4 ++ ']' :: suf))) := by simp
    have s1 := parsePart_all d1 ('.' :: (d2 ++ '.' :: (d3 ++ '.' :: (d4 ++ ']' :: suf)))) h1 p1
      (by intro h t ht; cases ht; rfl)
    have s2 := parsePart_all d2 ('.' :: (d3 ++ '.' :: (d4 ++ ']' :: suf))) h2 p2
      (by intro h t ht; cases ht; rfl)
    have s3 := parsePart_all d3 ('.' :: (d4 ++ ']' :: suf)) h3 p3
      (by intro h t ht; cases ht; rfl)
    have s4 := parsePart_all d4 (']' :: suf) h4 p4
      (by intro h t ht; cases ht; rfl)
    rw [e]
    unfold parseVerAfterBracket
    rw [s1]
    simp only []
    rw [s2]
    simp only []
    rw [s3]
    simp only []
    rw [s4]
    simp

theorem bracketVersions_skip (pre rest : List Char) (h : ∀ c ∈ pre, c ≠ '[') :
    bracketVersions (pre ++ rest) = bracketVersions rest := by
  induction pre with
  | nil => simp
  | cons a as ih =>
    have ha : a ≠ '[' := h a (by simp)
    simp only [List.cons_append, bracketVersions, if_neg ha]
    exact ih (fun c hc => h c (by simp [hc]))

theorem bracketVersions_first (pre v suf : List Char)
    (hpre : ∀ c ∈ pre, c ≠ '[') (hv : VersionToken v) :
    (bracketVersions (pre ++ '[' :: (v ++ ']' :: suf))).head? = some v.asString := by
  rw [bracketVersions_skip pre _ hpre]
  simp only [bracketVersions, if_pos rfl, parseVerAfterBracket_token v suf hv]
  rfl

/-! ## Claim C3 -/

/-- C3 counterexample: the claim says an explicitly supplied version is
validated against `N.N.N` / `N.N.N.N` and a non-matching string is
rejected.  The code performs no such validation: `--version banana` is
accepted verbatim and the program proceeds (exit 0 from the resolution
step).  A second flaw: the empty explicit version string is falsy in
Python, so it is *not* used verbatim but silently replaced by
auto-detection. -/
theorem c3_explicit_version_counterexample :
    versionPatternOk "banana" = false
    ∧ resolveVersion (some "banana") (some "## [9.9.9]") (some "x") = some "banana"
    ∧ mainVersionExit (some "banana") (some "## [9.9.9]") (some "x") = 0
    ∧ resolveVersion (some "") (some "## [1.2.3]") none = some "1.2.3" := by
  refine ⟨by decide, by decide, by decide, by decide⟩

/-- C3 (amended): every *non-empty* explicitly supplied version string is
returned unchanged by version resolution, with no pattern validation of
any kind (arbitrary strings are accepted); an empty explicit version is
treated as absent. -/
theorem c3_explicit_version_verbatim (v : String) (cl xml : Option String)
    (hv : v ≠ "") : resolveVersion (some v) cl xml = some v := by
  have : v.isEmpty = false := by
    cases hve : v.isEmpty
    · rfl
    · exact absurd ((String.isEmpty_iff v).mp hve) hv
  simp [resolveVersion, pyTruthy, this]

theorem c3_explicit_version_verbatim_witness :
    "banana" ≠ "" ∧ resolveVersion (some "banana") none none = some "banana" :=
  ⟨by decide, c3_explicit_version_verbatim "banana" none none (by decide)⟩

/-! ## Claim C4 -/

/-- C4: with no explicit version, resolution tries the changelog first
(and there the topmost bracketed version wins, whatever follows it);
falls back to the XML header document only when the changelog yields
nothing; and when neither yields a match the program exits non-zero
instead of supplying a default. -/
theorem c4_version_resolution_order :
    (∀ cl xml v, getVersionFromChangelog cl = some v → v ≠ "" →
        resolveVersion none cl xml = some v)
    ∧ (∀ cl xml, getVersionFromChangelog cl = none →
        resolveVersion none cl xml = getVersionFromXml xml)
    ∧ (∀ cl xml, getVersionFromChangelog cl = none → getVersionFromXml xml = none →
        resolveVersion none cl xml = none ∧ mainVersionExit none cl xml = 1)
    ∧ (∀ pre v suf, (∀ c ∈ pre, c ≠ '[') → VersionToken v →
        getVersionFromChangelog (some (pre ++ '[' :: (v ++ ']' :: suf)).asString)
          = some v.asString) := by
  refine ⟨?_, ?_, ?_, ?_⟩
  · intro cl xml v h hv
    have : v.isEmpty = false := by
      cases hve : v.isEmpty
      · rfl
      · exact absurd ((String.isEmpty_iff v).mp hve) hv
    simp [resolveVersion, pyTruthy, h, this]
  · intro cl xml h
    simp [resolveVersion, pyTruthy, h]
  · intro cl xml h1 h2
    constructor
    · simp [resolveVersion, pyTruthy, h1, h2]
    · simp [mainVersionExit, resolveVersion, pyTruthy, h1, h2]
  · intro pre v suf hpre hv
    show (bracketVersions (String.toList (pre ++ '[' :: (v ++ ']' :: suf)).asString)).head?
        = some v.asString
    rw [show String.toList (pre ++ '[' :: (v ++ ']' :: suf)).asString
        = pre ++ '[' :: (v ++ ']' :: suf) from rfl]
    exact bracketVersions_first pre v suf hpre hv

theorem c4_version_resolution_order_witness :
    getVersionFromChangelog (some ("junk ".toList ++ '[' ::
        (['1', '.', '2', '.', '3'] ++ ']' :: " [9.9.9]".toList)).asString)
      = some (['1', '.', '2', '.', '3'] : List Char).asString :=
  c4_version_resolution_order.2.2.2 "junk ".toList ['1', '.', '2', '.', '3']
    " [9.9.9]".toList (by decide)
    (Or.inl ⟨['1'], ['2'], ['3'], by decide, by decide, by decide,
      by decide, by decide, by decide, rfl⟩)

end LuminariGUI

namespace LuminariGUI

/-! ## Claim C9: `run_git_command` never raises

`subprocess.run(['git'] + command, capture_output=True, text=True,
check=check)` either returns a completed process, raises
`CalledProcessError` (when `check` and the exit code is non-zero), or
raises `FileNotFoundError` (missing executable).  `run_git_command`
catches both exception classes. -/

/-- Behaviour of the external process for one invocation. -/
inductive SubprocessOutcome
  | completed (stdout stderr : String) (code : Int)
  | execMissing
deriving DecidableEq, Repr

/-- The Python exceptions that `subprocess.run` can raise here. -/
inductive PyError
  | calledProcessError (stdout stderr : String) (code : Int)
  | fileNotFoundError
deriving DecidableEq, Repr

/-- `subprocess.run(..., check=check)`: raises `CalledProcessError` on a
non-zero exit when `check` is set, `FileNotFoundError` when the
executable is missing, and otherwise returns the completed process. -/
def subprocessRun (o : SubprocessOutcome) (check : Bool) :
    Except PyError (String × String × Int) :=
  match o with
  | .completed out err code =>
    if check && code != 0 then .error (.calledProcessError out err code)
    else .ok (out, err, code)
  | .execMissing => .error .fileNotFoundError

/-- `run_git_command` (lines 198-211): wraps `subprocessRun` in
`try/except`, stripping outputs, converting `CalledProcessError` into an
ordinary result triple and a missing executable into the synthetic
`("", "Git not found", 1)`. -/
def runGitCommandExc (o : SubprocessOutcome) (check : Bool) :
    Except PyError (String × String × Int) :=
  match subprocessRun o check with
  | .ok (out, err, code) => .ok (out.trim, err.trim, code)
  | .error (.calledProcessError out err code) => .ok (out.trim, err.trim, code)
  | .error .fileNotFoundError => .ok ("", "Git not found", 1)

/-- C9: for every subprocess behaviour and every `check` flag,
`run_git_command` returns an ordinary `(stdout, stderr, exitCode)` triple
and never propagates an exception: a non-zero exit comes back as the
stripped triple itself, and a missing executable becomes the synthetic
result with exit code 1 and the descriptive message. -/
theorem c9_run_git_command_total (o : SubprocessOutcome) (check : Bool) :
    runGitCommandExc o check =
      .ok (match o with
           | .completed out err code => (out.trim, err.trim, code)
           | .execMissing => ("", "Git not found", 1)) := by
  cases o with
  | completed out err code =>
    cases h : check && code != 0
    · simp [runGitCommandExc, subprocessRun, h]
    · simp [runGitCommandExc, subprocessRun, h]
  | execMissing => rfl

/-! ## The `World`: filesystem plus git repository plus environment oracles

Stateful parts of the script are embedded as functions
`World → result × World × List Effect`.  `Effect` records every external
action; reads record nothing.  Outcomes the environment decides (command
failures, I/O errors, command outputs) are oracle fields of the world, so
the embedded control flow covers each of the script's branches. -/

/-- The release-metadata record built by `create_release_metadata`:
version, build kind, creation time, package file name, byte size,
content hash, compatibility tag and description. -/
structure Metadata where
  version : String
  mtype : String
  created : String
  packageFile : String
  fileSize : Nat
  sha256 : Option String
  mudletVersion : String
  description : String
deriving DecidableEq, Repr

/-- Content of a file in the modelled filesystem. -/
inductive FileData
  | text (s : String)
  | archivePartial
  | archiveFull
  | metaFile (m : Metadata)
deriving DecidableEq, Repr

/-- External actions performed by the script. -/
inductive Effect
  | git (args : List String)
  | proc (argv : List String)
  | fsWrite (path : String)
  | fsRemove (path : String)
  | fsMkdir (path : String)
deriving DecidableEq, Repr

/-- A git command that mutates the repository (as opposed to the
read-only `status` / `branch --show-current` / `show-ref` queries). -/
def mutatingGitArgs (args : List String) : Bool :=
  match args.head? with
  | some a =>
    a = "checkout" || a = "add" || a = "commit" || a = "tag" ||
      a = "merge" || a = "push" || a = "branch" && args ≠ ["branch", "--show-current"]
        && args ≠ ["branch", "-a"]
  | none => false

/-- An effect that mutates the repository or the filesystem. -/
def mutatingEffect : Effect → Bool
  | .git args => mutatingGitArgs args
  | .proc _ => false
  | .fsWrite _ => true
  | .fsRemove _ => true
  | .fsMkdir _ => true

/-- The externally owned git repository state. -/
structure GitRepo where
  branches : List String
  tags : List String
  current : String
deriving DecidableEq, Repr

/-- World state threaded through the embedded script: repository,
filesystem, and oracle fields for environment-decided outcomes. -/
structure World where
  repo : GitRepo
  files : List (String × FileData)
  dirs : List String
  /-- output of `git status --porcelain` -/
  statusOut : String
  /-- branches whose checkout the environment makes fail -/
  checkoutFail : List String
  /-- response to `git commit -m …` -/
  commitResp : String × String × Int
  /-- response to `git merge …` -/
  mergeResp : String × String × Int
  /-- response to `git push origin …` -/
  pushResp : String × String × Int
  /-- exit code of `validate_package.py` -/
  validateCode : Int
  /-- exit code of `run_tests.py` -/
  testCode : Int
  /-- result of the version-regex search in `check_version_consistency` -/
  xmlHeaderVersion : Option String
  /-- whether the `update_xml_version` substitution changes the file -/
  xmlPatternApplies : Bool
  /-- whether the `update_changelog_version` substitution changes the file -/
  changelogPatternApplies : Bool
  copyXmlOk : Bool
  copyImagesOk : Bool
  copyAudioOk : Bool
  configWriteOk : Bool
  zipOpenOk : Bool
  zipWriteOk : Bool
  metaWriteOk : Bool
  /-- whether the finished package file can be opened for hashing -/
  hashReadable : Bool
  /-- the hash value when it can be computed -/
  hashVal : String
  /-- `os.path.getsize` of the finished package -/
  outSize : Nat
  /-- current wall-clock timestamp, as used in names and dates -/
  now : String
deriving DecidableEq, Repr

/-- Lookup in the association-list filesystem. -/
def fsLookup (files : List (String × FileData)) (p : String) : Option FileData :=
  match files with
  | [] => none
  | (q, d) :: t => if q = p then some d else fsLookup t p

/-- Store (insert or overwrite) in the association-list filesystem. -/
def fsStore (files : List (String × FileData)) (p : String) (d : FileData) :
    List (String × FileData) :=
  match files with
  | [] => [(p, d)]
  | (q, e) :: t => if q = p then (q, d) :: t else (q, e) :: fsStore t p d

/-- `os.path.exists`: true for files and directories. -/
def pathExists (w : World) (p : String) : Bool :=
  (fsLookup w.files p).isSome || w.dirs.contains p

/-- `os.path.isfile`. -/
def isFile (w : World) (p : String) : Bool := (fsLookup w.files p).isSome

/-- Read a text file; `none` models a raised `IOError` (missing file or
non-text content). -/
def readFile (w : World) (p : String) : Option String :=
  match fsLookup w.files p with
  | some (.text s) => some s
  | _ => none

/-- Write a text-like payload at a path. -/
def writeFile (w : World) (p : String) (d : FileData) : World :=
  { w with files := fsStore w.files p d }

end LuminariGUI

namespace LuminariGUI

/-! ## Git command interpreter

`run_git_command` collapses to this interpreter inside the workflow
model: claim C9 shows it always returns a triple, so the exception layer
is dropped here and the triple computed directly.  Repository-determined
commands (`show-ref`, `tag`, `checkout`) have concrete semantics;
environment-determined responses (`status`, `commit`, `merge`, `push`)
come from the world's oracle fields. -/

def gitUnknown (w : World) : (String × String × Int) × World := (("", "unsupported", 1), w)

def runGitPure (w : World) (args : List String) : (String × String × Int) × World :=
  match args with
  | "status" :: rest =>
    (match rest with
     | ["--porcelain"] => ((w.statusOut, "", 0), w)
     | _ => gitUnknown w)
  | "branch" :: rest =>
    (match rest with
     | ["--show-current"] => ((w.repo.current, "", 0), w)
     | _ => gitUnknown w)
  | "show-ref" :: rest =>
    (match rest with
     | ["--verify", "--quiet", r] =>
       if w.repo.branches.any (fun b => r = "refs/heads/" ++ b)
       then (("", "", 0), w) else (("", "", 1), w)
     | ["--tags", "--quiet", r] =>
       if w.repo.tags.any (fun t => r = "refs/tags/" ++ t)
       then (("", "", 0), w) else (("", "", 1), w)
     | _ => gitUnknown w)
  | "checkout" :: rest =>
    (match rest with
     | [b] =>
       if w.repo.branches.contains b && !w.checkoutFail.contains b then
         (("", "", 0), { w with repo := { w.repo with current := b } })
       else (("", "error: checkout failed", 1), w)
     | [x, b] =>
       if x = "-b" then
         if !w.repo.branches.contains b && !w.checkoutFail.contains b then
           (("", "", 0),
             { w with repo := { branches := b :: w.repo.branches,
                                tags := w.repo.tags, current := b } })
         else (("", "fatal: branch creation failed", 1), w)
       else gitUnknown w
     | _ => gitUnknown w)
  | "add" :: rest =>
    (match rest with
     | [f] =>
       if pathExists w f then (("", "", 0), w)
       else (("", "fatal: pathspec did not match", 1), w)
     | _ => gitUnknown w)
  | "commit" :: rest =>
    (match rest with
     | ["-m", _m] => (w.commitResp, w)
     | _ => gitUnknown w)
  | "tag" :: rest =>
    (match rest with
     | ["-a", t, "-m", _m] =>
       if w.repo.tags.contains t then (("", "fatal: tag already exists", 1), w)
       else (("", "", 0), { w with repo := { w.repo with tags := t :: w.repo.tags } })
     | ["-f", "-a", t, "-m", _m] =>
       if w.repo.tags.contains t then (("", "", 0), w)
       else (("", "", 0), { w with repo := { w.repo with tags := t :: w.repo.tags } })
     | _ => gitUnknown w)
  | "merge" :: rest =>
    (match rest with
     | [_b, "--no-ff", "-m", _m] => (w.mergeResp, w)
     | _ => gitUnknown w)
  | "push" :: rest =>
    (match rest with
     | "origin" :: _rest2 => (w.pushResp, w)
     | _ => gitUnknown w)
  | _ => gitUnknown w

/-- `run_git_command` inside the workflow: interpreter result with the
Python-side `.strip()` of both streams, plus the logged effect. -/
def runGitCmd (w : World) (args : List String) :
    (String × String × Int) × World × List Effect :=
  match runGitPure w args with
  | ((out, err, code), w') => ((out.trim, err.trim, code), w', [Effect.git args])

/-- `check_git_status`: clean iff `status --porcelain` succeeds with empty
output. -/
def checkGitStatus (w : World) : Bool × World × List Effect :=
  match runGitCmd w ["status", "--porcelain"] with
  | ((out, _err, code), w', es) =>
    if code != 0 then (false, w', es)
    else if out.trim != "" then (false, w', es)
    else (true, w', es)

/-- `get_current_branch`. -/
def getCurrentBranch (w : World) : Option String × World × List Effect :=
  match runGitCmd w ["branch", "--show-current"] with
  | ((out, _err, code), w', es) =>
    if code != 0 then (none, w', es) else (some out, w', es)

/-- `create_release_branch` (lines 274-294). -/
def createReleaseBranch (w : World) (version : String) :
    Bool × World × List Effect :=
  let branchName := "release/v" ++ version
  match runGitCmd w ["show-ref", "--verify", "--quiet", "refs/heads/" ++ branchName] with
  | ((_, _, code), w1, e1) =>
    if code = 0 then
      match runGitCmd w1 ["checkout", branchName] with
      | ((_, _, c2), w2, e2) =>
        if c2 != 0 then (false, w2, e1 ++ e2) else (true, w2, e1 ++ e2)
    else
      match runGitCmd w1 ["checkout", "-b", branchName] with
      | ((_, _, c3), w3, e3) =>
        if c3 != 0 then (false, w3, e1 ++ e3) else (true, w3, e1 ++ e3)

/-- Fixed commit message template of `commit_release_changes`. -/
def commitMessage (version : String) : String := "Prepare release v" ++ version

/-- `commit_release_changes` (lines 296-321): stage the files that exist
(a missing file is skipped with a warning, a failed `add` is a warning),
then commit; a non-zero commit exit whose stderr contains
"nothing to commit" is success. -/
def commitReleaseChanges (w : World) (version : String)
    (filesToAdd : Option (List String)) : Bool × World × List Effect :=
  let fs := filesToAdd.getD ["CHANGELOG.md", "LuminariGUI.xml"]
  let staged := fs.foldl
    (fun (acc : World × List Effect) f =>
      if pathExists acc.1 f then
        match runGitCmd acc.1 ["add", f] with
        | ((_, _, _c), w', e) => (w', acc.2 ++ e)
      else acc)
    (w, [])
  match runGitCmd staged.1 ["commit", "-m", commitMessage version] with
  | ((_, err, code), w2, e2) =>
    if code != 0 then
      if strHas err "nothing to commit" then (true, w2, staged.2 ++ e2)
      else (false, w2, staged.2 ++ e2)
    else (true, w2, staged.2 ++ e2)

/-- Fixed annotated-tag message template of `create_git_tag`. -/
def tagMessage (version : String) : String := "Release version " ++ version

/-- `create_git_tag` (lines 323-347): `show-ref --tags` probe, early
`False` on an existing tag without `force`, otherwise `git tag -a`
(with `-f` inserted when forcing). -/
def createGitTag (w : World) (version : String) (force : Bool) :
    Bool × World × List Effect :=
  let tagName := "v" ++ version
  match runGitCmd w ["show-ref", "--tags", "--quiet", "refs/tags/" ++ tagName] with
  | ((_, _, code), w1, e1) =>
    if code = 0 && !force then (false, w1, e1)
    else
      let cmd := if force then ["tag", "-f", "-a", tagName, "-m", tagMessage version]
                 else ["tag", "-a", tagName, "-m", tagMessage version]
      match runGitCmd w1 cmd with
      | ((_, _, c2), w2, e2) =>
        if c2 != 0 then (false, w2, e1 ++ e2) else (true, w2, e1 ++ e2)

/-- `push_git_changes` (lines 349-365). -/
def pushGitChanges (w : World) (branchName : Option String) (pushTags : Bool) :
    Bool × World × List Effect :=
  let step1 : Option (World × List Effect) :=
    match branchName with
    | some b =>
      match runGitCmd w ["push", "origin", b] with
      | ((_, _, c), w1, e1) => if c != 0 then none else some (w1, e1)
    | none => some (w, [])
  match step1 with
  | none =>
    (false, (match branchName with
             | some b => (runGitCmd w ["push", "origin", b]).2.1
             | none => w),
      (match branchName with
       | some b => (runGitCmd w ["push", "origin", b]).2.2
       | none => []))
  | some (w1, e1) =>
    if pushTags then
      match runGitCmd w1 ["push", "origin", "--tags"] with
      | ((_, _, c2), w2, e2) => (if c2 != 0 then false else true, w2, e1 ++ e2)
    else (true, w1, e1)

end LuminariGUI

namespace LuminariGUI

/-! ## Helper lemmas for the git interpreter -/

theorem string_append_right_inj (a : String) {b c : String} :
    a ++ b = a ++ c ↔ b = c := by
  constructor
  · intro h
    have := congrArg String.data h
    simp at this
    exact String.ext this
  · intro h; rw [h]

theorem any_append_eq (pre x : String) (l : List String) :
    (l.any fun t => pre ++ x = pre ++ t) = decide (x ∈ l) := by
  induction l with
  | nil => simp
  | cons h t ih =>
    simp only [List.any_cons, ih, List.mem_cons, decide_eq_true_eq]
    rw [show (decide (pre ++ x = pre ++ h)) = decide (x = h) from
      decide_eq_decide.mpr (string_append_right_inj pre)]
    simp

theorem runGitCmd_eq (w : World) (args : List String) :
    runGitCmd w args =
      (((runGitPure w args).1.1.trim, (runGitPure w args).1.2.1.trim,
        (runGitPure w args).1.2.2), (runGitPure w args).2, [Effect.git args]) := rfl

theorem runGitPure_status (w : World) :
    runGitPure w ["status", "--porcelain"] = ((w.statusOut, "", 0), w) := rfl

theorem runGitPure_branchShow (w : World) :
    runGitPure w ["branch", "--show-current"] = ((w.repo.current, "", 0), w) := rfl

theorem runGitPure_checkout (w : World) (b : String) :
    runGitPure w ["checkout", b] =
      (if w.repo.branches.contains b && !w.checkoutFail.contains b then
        (("", "", 0), { w with repo := { w.repo with current := b } })
      else (("", "error: checkout failed", 1), w)) := rfl

theorem runGitPure_checkoutB (w : World) (b : String) :
    runGitPure w ["checkout", "-b", b] =
      (if !w.repo.branches.contains b && !w.checkoutFail.contains b then
        (("", "", 0),
          { w with repo := { branches := b :: w.repo.branches,
                             tags := w.repo.tags, current := b } })
      else (("", "fatal: branch creation failed", 1), w)) := rfl

theorem runGitPure_add (w : World) (f : String) :
    runGitPure w ["add", f] =
      (if pathExists w f then (("", "", 0), w)
       else (("", "fatal: pathspec did not match", 1), w)) := rfl

theorem runGitPure_commit (w : World) (m : String) :
    runGitPure w ["commit", "-m", m] = (w.commitResp, w) := rfl

theorem runGitPure_tag (w : World) (t m : String) :
    runGitPure w ["tag", "-a", t, "-m", m] =
      (if w.repo.tags.contains t then (("", "fatal: tag already exists", 1), w)
       else (("", "", 0), { w with repo := { w.repo with tags := t :: w.repo.tags } })) := rfl

theorem runGitPure_tagF (w : World) (t m : String) :
    runGitPure w ["tag", "-f", "-a", t, "-m", m] =
      (if w.repo.tags.contains t then (("", "", 0), w)
       else (("", "", 0), { w with repo := { w.repo with tags := t :: w.repo.tags } })) := rfl

theorem runGitPure_merge (w : World) (b m : String) :
    runGitPure w ["merge", b, "--no-ff", "-m", m] = (w.mergeResp, w) := rfl

theorem runGitPure_push (w : World) (rest : List String) :
    runGitPure w ("push" :: "origin" :: rest) = (w.pushResp, w) := rfl

/-- The `show-ref --verify` probe: exit 0 exactly when the branch exists;
no state change. -/
theorem runGitPure_showRefHeads (w : World) (x : String) :
    runGitPure w ["show-ref", "--verify", "--quiet", "refs/heads/" ++ x]
      = (if x ∈ w.repo.branches then (("", "", 0), w) else (("", "", 1), w)) := by
  show (if w.repo.branches.any (fun b => "refs/heads/" ++ x = "refs/heads/" ++ b)
      then (("", "", 0), w) else (("", "", 1), w)) = _
  rw [any_append_eq]
  by_cases h : x ∈ w.repo.branches <;> simp [h]

/-- The `show-ref --tags` probe: exit 0 exactly when the tag exists; no
state change. -/
theorem runGitPure_showRefTags (w : World) (x : String) :
    runGitPure w ["show-ref", "--tags", "--quiet", "refs/tags/" ++ x]
      = (if x ∈ w.repo.tags then (("", "", 0), w) else (("", "", 1), w)) := by
  show (if w.repo.tags.any (fun t => "refs/tags/" ++ x = "refs/tags/" ++ t)
      then (("", "", 0), w) else (("", "", 1), w)) = _
  rw [any_append_eq]
  by_cases h : x ∈ w.repo.tags <;> simp [h]

/-- Closed-form behaviour of `create_release_branch` over the model. -/
theorem createReleaseBranch_eq (w : World) (version : String) :
    createReleaseBranch w version =
      (if ("release/v" ++ version) ∈ w.repo.branches then
        if ("release/v" ++ version) ∈ w.checkoutFail then
          (false, w,
            [Effect.git ["show-ref", "--verify", "--quiet",
               "refs/heads/" ++ ("release/v" ++ version)],
             Effect.git ["checkout", "release/v" ++ version]])
        else
          (true, { w with repo := { w.repo with current := "release/v" ++ version } },
            [Effect.git ["show-ref", "--verify", "--quiet",
               "refs/heads/" ++ ("release/v" ++ version)],
             Effect.git ["checkout", "release/v" ++ version]])
      else
        if ("release/v" ++ version) ∈ w.checkoutFail then
          (false, w,
            [Effect.git ["show-ref", "--verify", "--quiet",
               "refs/heads/" ++ ("release/v" ++ version)],
             Effect.git ["checkout", "-b", "release/v" ++ version]])
        else
          (true, { w with repo := { branches := ("release/v" ++ version) :: w.repo.branches,
                                    tags := w.repo.tags,
                                    current := "release/v" ++ version } },
            [Effect.git ["show-ref", "--verify", "--quiet",
               "refs/heads/" ++ ("release/v" ++ version)],
             Effect.git ["checkout", "-b", "release/v" ++ version]])) := by
  by_cases hb : ("release/v" ++ version) ∈ w.repo.branches <;>
    by_cases hf : ("release/v" ++ version) ∈ w.checkoutFail <;>
      simp [createReleaseBranch, runGitCmd_eq, runGitPure_showRefHeads,
        runGitPure_checkout, runGitPure_checkoutB, hb, hf]

end LuminariGUI

namespace LuminariGUI

/-! ## Claim C7: `create_release_branch` idempotence -/

/-- C7: ensuring the release branch fails only when the environment makes
the underlying checkout/creation command fail; an existing branch is
never by itself an error (it is checked out); and after a successful
call, calling again succeeds and leaves the same branch checked out. -/
theorem c7_ensure_branch_idempotent (w : World) (version : String) :
    ((createReleaseBranch w version).1 = false → ("release/v" ++ version) ∈ w.checkoutFail)
    ∧ (("release/v" ++ version) ∈ w.repo.branches →
        ("release/v" ++ version) ∉ w.checkoutFail →
        (createReleaseBranch w version).1 = true)
    ∧ (∀ w1 es, createReleaseBranch w version = (true, w1, es) →
        w1.repo.current = "release/v" ++ version
        ∧ (createReleaseBranch w1 version).1 = true
        ∧ ((createReleaseBranch w1 version).2.1).repo.current = "release/v" ++ version) := by
  refine ⟨?_, ?_, ?_⟩
  · intro hfalse
    by_cases hf : ("release/v" ++ version) ∈ w.checkoutFail
    · exact hf
    · exfalso
      by_cases hb : ("release/v" ++ version) ∈ w.repo.branches <;>
        simp [createReleaseBranch_eq, hb, hf] at hfalse
  · intro hb hf
    simp [createReleaseBranch_eq, hb, hf]
  · intro w1 es h
    by_cases hb : ("release/v" ++ version) ∈ w.repo.branches <;>
      by_cases hf : ("release/v" ++ version) ∈ w.checkoutFail <;>
        simp [createReleaseBranch_eq, hb, hf] at h
    · obtain ⟨rfl, -⟩ := h
      refine ⟨rfl, ?_, ?_⟩ <;> simp [createReleaseBranch_eq, hb, hf]
    · obtain ⟨rfl, -⟩ := h
      refine ⟨rfl, ?_, ?_⟩ <;>
        simp [createReleaseBranch_eq, List.mem_cons, hf]

/-- A concrete healthy world used by the witnesses below. -/
def sampleWorld : World :=
  { repo := { branches := ["release/v1.2.3", "master"], tags := ["v1.0.0"],
              current := "master" },
    files := [("LuminariGUI.xml", .text "<?xml version=\"1.0\"?>"),
              ("CHANGELOG.md", .text "## [1.2.3] - 2024-01-01")],
    dirs := [], statusOut := "", checkoutFail := [],
    commitResp := ("", "", 0), mergeResp := ("", "", 0), pushResp := ("", "", 0),
    validateCode := 0, testCode := 0, xmlHeaderVersion := none,
    xmlPatternApplies := true, changelogPatternApplies := true,
    copyXmlOk := true, copyImagesOk := true, copyAudioOk := true,
    configWriteOk := true, zipOpenOk := true, zipWriteOk := true,
    metaWriteOk := true, hashReadable := true, hashVal := "h", outSize := 1,
    now := "20240101-120000" }

theorem c7_ensure_branch_idempotent_witness :
    ("release/v1.2.3" : String) ∈ sampleWorld.repo.branches
      ∧ ("release/v1.2.3" : String) ∉ sampleWorld.checkoutFail
      ∧ (createReleaseBranch sampleWorld "1.2.3").1 = true :=
  ⟨by decide, by decide,
    (c7_ensure_branch_idempotent sampleWorld "1.2.3").2.1 (by decide) (by decide)⟩

/-! ## Claim C6: `create_git_tag` -/

/-- Closed-form behaviour of `create_git_tag` over the model. -/
theorem createGitTag_eq (w : World) (version : String) (force : Bool) :
    createGitTag w version force =
      (if ("v" ++ version) ∈ w.repo.tags then
        (if force then
          (true, w,
            [Effect.git ["show-ref", "--tags", "--quiet", "refs/tags/" ++ ("v" ++ version)],
             Effect.git ["tag", "-f", "-a", "v" ++ version, "-m", tagMessage version]])
        else
          (false, w,
            [Effect.git ["show-ref", "--tags", "--quiet", "refs/tags/" ++ ("v" ++ version)]]))
      else
        (true, { w with repo := { w.repo with tags := ("v" ++ version) :: w.repo.tags } },
          [Effect.git ["show-ref", "--tags", "--quiet", "refs/tags/" ++ ("v" ++ version)],
           Effect.git (if force then ["tag", "-f", "-a", "v" ++ version, "-m", tagMessage version]
                       else ["tag", "-a", "v" ++ version, "-m", tagMessage version])])) := by
  by_cases ht : ("v" ++ version) ∈ w.repo.tags <;> cases force <;>
    simp [createGitTag, runGitCmd_eq, runGitPure_showRefTags,
      runGitPure_tag, runGitPure_tagF, ht]

/-- C6: an existing tag with `force = false` is the `TagExists` failure
and modifies nothing; `force = true` always succeeds; a fresh tag is
created on success; hence two `force = false` calls yield success then
`TagExists`, and two `force = true` calls both succeed. -/
theorem c6_tag_exists_and_force (w : World) (version : String) :
    (("v" ++ version) ∈ w.repo.tags →
      createGitTag w version false =
        (false, w,
          [Effect.git ["show-ref", "--tags", "--quiet", "refs/tags/" ++ ("v" ++ version)]]))
    ∧ (createGitTag w version true).1 = true
    ∧ (("v" ++ version) ∉ w.repo.tags →
      (createGitTag w version false).1 = true
      ∧ ((createGitTag w version false).2.1).repo.tags = ("v" ++ version) :: w.repo.tags)
    ∧ (("v" ++ version) ∉ w.repo.tags →
      (createGitTag ((createGitTag w version false).2.1) version false).1 = false)
    ∧ (createGitTag ((createGitTag w version true).2.1) version true).1 = true := by
  refine ⟨?_, ?_, ?_, ?_, ?_⟩
  · intro ht
    simp [createGitTag_eq, ht]
  · by_cases ht : ("v" ++ version) ∈ w.repo.tags <;> simp [createGitTag_eq, ht]
  · intro ht
    simp [createGitTag_eq, ht]
  · intro ht
    simp [createGitTag_eq, ht, List.mem_cons]
  · by_cases ht : ("v" ++ version) ∈ w.repo.tags <;>
      simp [createGitTag_eq, ht, List.mem_cons]

theorem c6_tag_exists_and_force_witness :
    ("v2.0.0" : String) ∉ sampleWorld.repo.tags
      ∧ (createGitTag sampleWorld "2.0.0" false).1 = true
      ∧ (createGitTag ((createGitTag sampleWorld "2.0.0" false).2.1) "2.0.0" false).1
          = false :=
  ⟨by decide,
    ((c6_tag_exists_and_force sampleWorld "2.0.0").2.2.1 (by decide)).1,
    (c6_tag_exists_and_force sampleWorld "2.0.0").2.2.2.1 (by decide)⟩

/-! ## Claim C8: `commit_release_changes` -/

theorem runGitPure_add_world (w : World) (f : String) :
    (runGitPure w ["add", f]).2 = w := by
  rw [runGitPure_add]
  by_cases hp : pathExists w f <;> simp [hp]

theorem commit_stage_world (fs : List String) (w : World) (es : List Effect) :
    (fs.foldl
      (fun (acc : World × List Effect) f =>
        if pathExists acc.1 f then
          match runGitCmd acc.1 ["add", f] with
          | ((_, _, _c), w', e) => (w', acc.2 ++ e)
        else acc)
      (w, es)).1 = w := by
  induction fs generalizing es with
  | nil => rfl
  | cons f t ih =>
    simp only [List.foldl_cons]
    by_cases hp : pathExists w f
    · rw [show (if pathExists ((w, es) : World × List Effect).1 f then
            match runGitCmd ((w, es) : World × List Effect).1 ["add", f] with
            | ((_, _, _c), w', e) => (w', ((w, es) : World × List Effect).2 ++ e)
          else (w, es))
          = (w, es ++ [Effect.git ["add", f]]) by
        simp [hp, runGitCmd_eq, runGitPure_add_world]]
      exact ih _
    · rw [show (if pathExists ((w, es) : World × List Effect).1 f then
            match runGitCmd ((w, es) : World × List Effect).1 ["add", f] with
            | ((_, _, _c), w', e) => (w', ((w, es) : World × List Effect).2 ++ e)
          else (w, es)) = (w, es) by simp [hp]]
      exact ih _

/-- C8: the outcome of `commit_release_changes` is decided purely by the
commit response: a non-zero commit exit succeeds exactly when the
(stripped) stderr contains "nothing to commit"; the file list — in
particular any files in it that do not exist, which are skipped with a
warning — never affects the outcome. -/
theorem c8_commit_nothing_to_commit (w : World) (version : String)
    (filesToAdd : Option (List String)) :
    (commitReleaseChanges w version filesToAdd).1 =
      (if w.commitResp.2.2 != 0 then strHas w.commitResp.2.1.trim "nothing to commit"
       else true) := by
  simp only [commitReleaseChanges]
  rw [show ((filesToAdd.getD ["CHANGELOG.md", "LuminariGUI.xml"]).foldl
      (fun (acc : World × List Effect) f =>
        if pathExists acc.1 f then
          match runGitCmd acc.1 ["add", f] with
          | ((_, _, _c), w', e) => (w', acc.2 ++ e)
        else acc)
      (w, [])).1 = w from commit_stage_world _ w []]
  rw [runGitCmd_eq, runGitPure_commit]
  by_cases hc : w.commitResp.2.2 != 0
  · simp only [hc, if_true]
    by_cases hs : strHas w.commitResp.2.1.trim "nothing to commit" <;> simp [hs]
  · simp only [hc]
    simp at hc
    simp [hc]

end LuminariGUI

namespace LuminariGUI

/-! ## Development-package retention (`cleanup_old_dev_packages`)

The dev-package pattern is
`LuminariGUI-v([0-9.]+)-dev-(\d{8})-(\d{6})\.mpackage`, matched with
`re.match`, which anchors at the *start only*: a name that extends a
matching prefix still matches.  The embedded timestamp is parsed with
`datetime.strptime(date + "-" + time, "%Y%m%d-%H%M%S")`, which raises
`ValueError` on an invalid calendar date or time — and that exception is
not caught anywhere in `cleanup_old_dev_packages`. -/

/-- Digits to a number (the components are fixed-width digit runs). -/
def digitsToNat (l : List Char) : Nat :=
  l.foldl (fun a c => a * 10 + (c.toNat - '0'.toNat)) 0

def isLeap (y : Nat) : Bool := (y % 4 == 0 && y % 100 != 0) || y % 400 == 0

def daysInMonth (y m : Nat) : Nat :=
  if m = 2 then (if isLeap y then 29 else 28)
  else if m = 4 ∨ m = 6 ∨ m = 9 ∨ m = 11 then 30
  else 31

/-- `datetime.strptime(date + "-" + time, "%Y%m%d-%H%M%S")`: `none` is the
raised `ValueError`; otherwise a sort key that is strictly monotone in the
datetime (every component is below 100, the year below 10000). -/
def strptimeKey (date time : String) : Option Nat :=
  let d := date.toList
  let t := time.toList
  let y := digitsToNat (d.take 4)
  let mo := digitsToNat ((d.drop 4).take 2)
  let da := digitsToNat (d.drop 6)
  let h := digitsToNat (t.take 2)
  let mi := digitsToNat ((t.drop 2).take 2)
  let s := digitsToNat (t.drop 4)
  if 1 ≤ y ∧ 1 ≤ mo ∧ mo ≤ 12 ∧ 1 ≤ da ∧ da ≤ daysInMonth y mo
      ∧ h ≤ 23 ∧ mi ≤ 59 ∧ s ≤ 59 then
    some (((((y * 100 + mo) * 100 + da) * 100 + h) * 100 + mi) * 100 + s)
  else none

/-- `re.match` of the dev-package pattern against `name` (anchored at the
start, the end left free): literal `LuminariGUI-v`, a nonempty greedy run
of `[0-9.]`, literal `-dev-`, exactly 8 digits, `-`, exactly 6 digits,
literal `.mpackage`.  Each greedy piece is followed by a character outside
its class, so no backtracking arises.  Returns the three captures. -/
def parseDevName (name : String) : Option (String × String × String) :=
  match dropLead "LuminariGUI-v".toList name.toList with
  | none => none
  | some r1 =>
    match r1.span (fun c => c.isDigit || c = '.') with
    | (ver, r2) =>
      if ver.isEmpty then none else
      match dropLead "-dev-".toList r2 with
      | none => none
      | some r3 =>
        let date := r3.take 8
        let r4 := r3.drop 8
        if date.length = 8 ∧ date.all Char.isDigit then
          match r4 with
          | '-' :: r5 =>
            let time := r5.take 6
            let r6 := r5.drop 6
            if time.length = 6 ∧ time.all Char.isDigit then
              match dropLead ".mpackage".toList r6 with
              | some _ => some (ver.asString, date.asString, time.asString)
              | none => none
            else none
          | _ => none
        else none

/-- The sort key of a matching name, `none` when the name does not match
(the timestamp-validity question is kept separate in `collectDev`). -/
def devNameKey (name : String) : Option Nat :=
  match parseDevName name with
  | none => none
  | some (_, d, t) => strptimeKey d t

/-- The listing loop of `cleanup_old_dev_packages`: collect
`(timestamp, name)` for every matching plain file; an invalid embedded
timestamp raises `ValueError` (`none`), aborting the whole pass before
any removal. -/
def collectDev : List String → Option (List (Nat × String))
  | [] => some []
  | n :: t =>
    match parseDevName n with
    | none => collectDev t
    | some (_, d, tm) =>
      match strptimeKey d tm with
      | none => none
      | some k =>
        match collectDev t with
        | none => none
        | some r => some ((k, n) :: r)

/-- Stable insertion for the descending sort. -/
def insDesc (a : Nat × String) : List (Nat × String) → List (Nat × String)
  | [] => [a]
  | b :: t => if a.1 < b.1 then b :: insDesc a t else a :: b :: t

/-- `dev_packages.sort(key=…, reverse=True)`: stable descending sort by
timestamp. -/
def sortDesc (l : List (Nat × String)) : List (Nat × String) := l.foldr insDesc []

/-- `package_path.replace('.mpackage', '.json')`. -/
def jsonOf (p : String) : String := pyReplace p ".mpackage" ".json"

/-- The names `cleanup_old_dev_packages(releases_dir, keep)` removes: every
matching package beyond position `keep` of the descending sort, together
with its metadata name.  (A metadata name not present in the directory is
simply never there to delete; per-file removal failures are warnings and
are modelled as success.) -/
def cleanupRemovals (listing : List String) (keep : Nat) : Option (List String) :=
  match collectDev listing with
  | none => none
  | some devs =>
    let removed := (sortDesc devs).drop keep
    some (removed.map (fun p => p.2) ++ removed.map (fun p => jsonOf p.2))

/-- The directory listing remaining after the retention pass. -/
def cleanupResult (listing : List String) (keep : Nat) : Option (List String) :=
  match cleanupRemovals listing keep with
  | none => none
  | some rem => some (listing.filter (fun n => !rem.contains n))

/-! ## Package construction (`create_mpackage`) and metadata -/

/-- `validate_xml_exists`: missing path, a directory, or an unreadable
file fail; a first line that is not `<?xml` is only a warning. -/
def validateXmlExists (w : World) (xmlFile : String) : Bool :=
  if !pathExists w xmlFile then false
  else if !isFile w xmlFile then false
  else
    match readFile w xmlFile with
    | none => false
    | some _ => true

/-- `setup_releases_directory`. -/
def setupReleasesDir (w : World) : World × List Effect :=
  if pathExists w "Releases" then (w, [])
  else ({ w with dirs := "Releases" :: w.dirs }, [Effect.fsMkdir "Releases"])

/-- `calculate_file_hash`: any failure to open/read the file (missing, or
unreadable per the `hashReadable` oracle) is caught and yields `None`. -/
def calculateFileHash (w : World) (p : String) : Option String :=
  if (fsLookup w.files p).isSome && w.hashReadable then some w.hashVal else none

/-- `os.path.basename`. -/
def basename (p : String) : String := (p.splitOn "/").getLastD p

/-- `create_release_metadata`: total given that the package file exists
(the `os.path.getsize` call is the `outSize` oracle); the hash field is
whatever `calculate_file_hash` produced, possibly `none`. -/
def createReleaseMetadata (w : World) (version p : String) (isDev : Bool) : Metadata :=
  { version := version,
    mtype := if isDev then "development" else "release",
    created := w.now,
    packageFile := basename p,
    fileSize := w.outSize,
    sha256 := calculateFileHash w p,
    mudletVersion := "4.0+",
    description := "LuminariGUI package for LuminariMUD" }

/-- Names of the plain files inside directory `d`. -/
def listDirFiles (w : World) (d : String) : List String :=
  w.files.filterMap (fun pf =>
    match dropLead (d ++ "/").toList pf.1.toList with
    | some rest => if rest.contains '/' then none else some rest.asString
    | none => none)

/-- Remove the named files from directory `d`. -/
def removeFiles (w : World) (d : String) (names : List String) : World :=
  { w with files := w.files.filter (fun pf => !(names.any (fun n => pf.1 = d ++ "/" ++ n))) }

/-- `cleanup_old_dev_packages` acting on the world; `none` is the
uncaught `ValueError` from `strptime`. -/
def cleanupOldDevPackagesW (w : World) (releasesDir : String) (keep : Nat) :
    Option (World × List Effect) :=
  let listing := listDirFiles w releasesDir
  match cleanupRemovals listing keep with
  | none => none
  | some rem =>
    some (removeFiles w releasesDir rem,
      (rem.filter (fun n => listing.contains n)).map
        (fun n => Effect.fsRemove (releasesDir ++ "/" ++ n)))

/-- `create_mpackage` (lines 756-878).  The zip archive is opened directly
at the output path; a failure while writing members (the `zipWriteOk`
oracle) leaves the partially written file behind — nothing removes it.
Temporary-directory writes are logged with a `tmp/` prefix and dropped
(the scoped directory is deleted on every exit path).  `none` is an
uncaught exception (only the dev-retention `ValueError` can escape). -/
def createMpackage (w : World) (xmlFile : String) (version : Option String)
    (isDev : Bool) : Option (Bool × World × List Effect) :=
  if !validateXmlExists w xmlFile then some (false, w, [])
  else
    match version with
    | none => some (false, w, [])
    | some v =>
      let (w1, e1) := setupReleasesDir w
      let outName :=
        if isDev then "LuminariGUI-v" ++ v ++ "-dev-" ++ w1.now ++ ".mpackage"
        else "LuminariGUI-v" ++ v ++ ".mpackage"
      let outPath := "Releases/" ++ outName
      if !w1.copyXmlOk then some (false, w1, e1)
      else
        let e2 := [Effect.fsWrite ("tmp/" ++ xmlFile)]
        let e3 := if pathExists w1 "images" && w1.dirs.contains "images" && w1.copyImagesOk
                  then [Effect.fsWrite "tmp/images"] else []
        let e4 := if pathExists w1 "audio" && w1.dirs.contains "audio" && w1.copyAudioOk
                  then [Effect.fsWrite "tmp/audio"] else []
        if !w1.configWriteOk then some (false, w1, e1 ++ e2 ++ e3 ++ e4)
        else
          let e5 := [Effect.fsWrite "tmp/config.lua"]
          if !w1.zipOpenOk then some (false, w1, e1 ++ e2 ++ e3 ++ e4 ++ e5)
          else if !w1.zipWriteOk then
            some (false, writeFile w1 outPath .archivePartial,
              e1 ++ e2 ++ e3 ++ e4 ++ e5 ++ [Effect.fsWrite outPath])
          else
            let w2 := writeFile w1 outPath .archiveFull
            let md := createReleaseMetadata w2 v outPath isDev
            let (w3, e6) :=
              if w2.metaWriteOk then
                (writeFile w2 (jsonOf outPath) (.metaFile md),
                 [Effect.fsWrite (jsonOf outPath)])
              else (w2, [])
            if isDev then
              match cleanupOldDevPackagesW w3 "Releases" 3 with
              | none => none
              | some (w4, e7) =>
                some (true, w4,
                  e1 ++ e2 ++ e3 ++ e4 ++ e5 ++ [Effect.fsWrite outPath] ++ e6 ++ e7)
            else
              some (true, w3, e1 ++ e2 ++ e3 ++ e4 ++ e5 ++ [Effect.fsWrite outPath] ++ e6)

end LuminariGUI

namespace LuminariGUI

/-! ## Release workflow (`execute_release_workflow`)

The leaf updaters (`update_xml_version`, `update_changelog_version`,
`check_version_consistency`, `validate_package_file`) are embedded at the
level of their control flow and effects: their regex substitutions are
abstracted by world oracles (`xmlPatternApplies`, `changelogPatternApplies`,
`xmlHeaderVersion`, `validateCode`, `testCode`), which no claim inspects —
every claim about the workflow concerns which steps run and what they
touch, not the substituted text. -/

/-- `validate_package_file`: missing validator script means a warning and
success; otherwise one validation subprocess, plus the test-suite
subprocess when `run_tests` is set and `run_tests.py` exists. -/
def validatePackageFile (w : World) (xmlFile : String) (runTests : Bool) :
    Bool × World × List Effect :=
  if !pathExists w "validate_package.py" then (true, w, [])
  else
    let xmlPassed : Bool := w.validateCode = 0
    let e1 := [Effect.proc ["validate_package.py", xmlFile]]
    let (testPassed, e2) :=
      if runTests then
        if pathExists w "run_tests.py" then
          ((w.testCode = 0 : Bool), [Effect.proc ["run_tests.py", "--xml", xmlFile, "--quiet"]])
        else (true, ([] : List Effect))
      else (true, ([] : List Effect))
    (xmlPassed && testPassed, w, e1 ++ e2)

/-- `check_version_consistency`: reads both documents and compares
`version == xml_version == changelog_version`; read failure or a missing
header pattern yields `False`.  Pure reads, no effects; the workflow
discards the result. -/
def checkVersionConsistency (w : World) (version xmlFile : String) :
    Bool × World × List Effect :=
  let changelogVersion := getVersionFromChangelog (readFile w "CHANGELOG.md")
  match readFile w xmlFile with
  | none => (false, w, [])
  | some _content =>
    match w.xmlHeaderVersion with
    | some xv => ((version = xv : Bool) && (changelogVersion = some xv : Bool), w, [])
    | none => (false, w, [])

/-- `update_xml_version`: read, substitute the header version (oracle),
write back when the text changed. -/
def updateXmlVersion (w : World) (xmlFile version : String) :
    Bool × World × List Effect :=
  match readFile w xmlFile with
  | none => (false, w, [])
  | some content =>
    if w.xmlPatternApplies then
      (true,
        writeFile w xmlFile (.text ("<!-- LuminariGUI Package v" ++ version ++ " -->" ++ content)),
        [Effect.fsWrite xmlFile])
    else (false, w, [])

/-- `update_changelog_version`: an already-present `## [version]` heading
is success without a write; otherwise the unreleased-section rewrite
(oracle) decides whether anything is written. -/
def updateChangelogVersion (w : World) (version : String) :
    Bool × World × List Effect :=
  match readFile w "CHANGELOG.md" with
  | none => (false, w, [])
  | some content =>
    if strHas content ("## [" ++ version ++ "]") then (true, w, [])
    else if w.changelogPatternApplies then
      (true, writeFile w "CHANGELOG.md" (.text ("## [" ++ version ++ "]\n" ++ content)),
        [Effect.fsWrite "CHANGELOG.md"])
    else (false, w, [])

/-- `execute_release_workflow` (lines 613-754): the six steps with their
dry-run guards, exactly in source order.  `none` is an uncaught exception
escaping the workflow (impossible here: packaging runs with
`is_dev = False`, so the dev-retention `ValueError` is out of reach). -/
def executeReleaseWorkflow (w0 : World) (xmlFile version : String)
    (dryRun push forceTag skipValidation skipGitCheck runTests : Bool) :
    Option (Bool × World × List Effect) :=
  -- Step 1: pre-release validation
  let (r1, w1, es1) :=
    if skipValidation then (true, w0, ([] : List Effect))
    else if dryRun then (true, w0, ([] : List Effect))
    else validatePackageFile w0 xmlFile runTests
  if !r1 then some (false, w1, es1)
  else
    let (r2, w2, es2) :=
      if skipGitCheck then (true, w1, ([] : List Effect))
      else if dryRun then (true, w1, ([] : List Effect))
      else checkGitStatus w1
    if !r2 then some (false, w2, es1 ++ es2)
    else
      -- Step 2: version management (consistency result discarded; update
      -- failures are warnings)
      let (w3, es3) :=
        if dryRun then (w2, ([] : List Effect))
        else
          let (_c, wa, ea) := checkVersionConsistency w2 version xmlFile
          let (_x, wb, eb) := updateXmlVersion wa xmlFile version
          let (_l, wc, ec) := updateChangelogVersion wb version
          (wc, ea ++ eb ++ ec)
      -- Step 3: git workflow
      let (_originalBranch, w4, es4) := getCurrentBranch w3
      let releaseBranch := "release/v" ++ version
      let (r5, w5, es5) :=
        if dryRun then (true, w4, ([] : List Effect))
        else createReleaseBranch w4 version
      if !r5 then some (false, w5, es1 ++ es2 ++ es3 ++ es4 ++ es5)
      else
        let (_r6, w6, es6) :=
          if dryRun then (true, w5, ([] : List Effect))
          else commitReleaseChanges w5 version none
        -- post-branch convenience step: merge into master and switch back
        -- (all failures are warnings)
        let (w7, es7) :=
          if dryRun then (w6, ([] : List Effect))
          else
            match runGitCmd w6 ["checkout", "master"] with
            | ((_, _, c), w7a, ea) =>
              if c != 0 then (w7a, ea)
              else
                match runGitCmd w7a ["merge", releaseBranch, "--no-ff", "-m",
                    "Merge release v" ++ version ++ " to master"] with
                | ((_, _, _c2), w7b, eb) =>
                  match runGitCmd w7b ["checkout", releaseBranch] with
                  | ((_, _, _c3), w7c, ec) => (w7c, ea ++ eb ++ ec)
        -- Step 4: package creation
        let pkg : Option (Bool × World × List Effect) :=
          if dryRun then some (true, w7, ([] : List Effect))
          else createMpackage w7 xmlFile (some version) false
        match pkg with
        | none => none
        | some (r8, w8, es8) =>
          if !r8 then some (false, w8, es1 ++ es2 ++ es3 ++ es4 ++ es5 ++ es6 ++ es7 ++ es8)
          else
            -- Step 5: git tagging (failure is a warning)
            let (_r9, w9, es9) :=
              if dryRun then (true, w8, ([] : List Effect))
              else createGitTag w8 version forceTag
            -- Step 6: optional push (failures are warnings)
            let (w10, es10) :=
              if push then
                if dryRun then (w9, ([] : List Effect))
                else
                  let (_p1, wa, ea) := pushGitChanges w9 (some releaseBranch) true
                  let (_p2, wb, eb) := pushGitChanges wa (some "master") false
                  (wb, ea ++ eb)
              else (w9, ([] : List Effect))
            some (true, w10,
              es1 ++ es2 ++ es3 ++ es4 ++ es5 ++ es6 ++ es7 ++ es8 ++ es9 ++ es10)

/-- Process exit code of `main --release`: 1 on a failed workflow or an
escaped exception, 0 on success. -/
def releaseExitCode (w : World) (xmlFile version : String)
    (dryRun push forceTag skipValidation skipGitCheck runTests : Bool) : Int :=
  match executeReleaseWorkflow w xmlFile version dryRun push forceTag
      skipValidation skipGitCheck runTests with
  | some (true, _, _) => 0
  | some (false, _, _) => 1
  | none => 1

end LuminariGUI

namespace LuminariGUI

/-! ## Claim C1: dry-run releases mutate nothing and always succeed -/

/-- C1: for every flag combination and every world, the dry-run release
workflow returns success (exit code 0), leaves the world — repository
branches, tags, status and filesystem — exactly as it was, and its only
external action is the read-only `git branch --show-current` query; in
particular it runs no mutating git command and writes no file. -/
theorem c1_dry_run_workflow (w : World) (xmlFile version : String)
    (push forceTag skipValidation skipGitCheck runTests : Bool) :
    executeReleaseWorkflow w xmlFile version true push forceTag
        skipValidation skipGitCheck runTests
      = some (true, w, [Effect.git ["branch", "--show-current"]])
    ∧ releaseExitCode w xmlFile version true push forceTag
        skipValidation skipGitCheck runTests = 0
    ∧ [Effect.git ["branch", "--show-current"]].all
        (fun e => !mutatingEffect e) = true := by
  refine ⟨?_, ?_, by decide⟩
  · simp [executeReleaseWorkflow, getCurrentBranch, runGitCmd_eq, runGitPure_branchShow]
  · simp [releaseExitCode, executeReleaseWorkflow, getCurrentBranch, runGitCmd_eq,
      runGitPure_branchShow]

end LuminariGUI

namespace LuminariGUI

/-! ## Claims C2 and C10: build failures and metadata -/

theorem fsLookup_store_self (l : List (String × FileData)) (p : String) (d : FileData) :
    fsLookup (fsStore l p d) p = some d := by
  induction l with
  | nil => simp [fsStore, fsLookup]
  | cons h t ih =>
    by_cases hp : h.1 = p
    · simp [fsStore, fsLookup, hp]
    · simp [fsStore, fsLookup, hp, ih]

theorem fsLookup_store_other (l : List (String × FileData)) (p q : String) (d : FileData)
    (h : q ≠ p) : fsLookup (fsStore l p d) q = fsLookup l q := by
  have hpq : p ≠ q := fun hh => h hh.symm
  induction l with
  | nil => simp [fsStore, fsLookup, hpq]
  | cons hd t ih =>
    by_cases hp : hd.1 = p
    · subst hp
      simp [fsStore, fsLookup, hpq]
    · simp only [fsStore, if_neg hp]
      by_cases hq : hd.1 = q <;> simp [fsLookup, hq, ih]

/-- Reassociation of the output path: the model builds
`"Releases/" ++ name`, statements use the flat form. -/
theorem releasePath_eq (v : String) :
    ("Releases/" : String) ++ ("LuminariGUI-v" ++ v ++ ".mpackage")
      = "Releases/LuminariGUI-v" ++ v ++ ".mpackage" := by
  rw [show ("Releases/LuminariGUI-v" : String) = "Releases/" ++ "LuminariGUI-v" from rfl,
    String.append_assoc, String.append_assoc, ← String.append_assoc]

/-- A world whose archive member-writing step fails. -/
def zipFailWorld : World := { sampleWorld with zipWriteOk := false }

/-- A world whose source document is missing. -/
def noXmlWorld : World := { sampleWorld with files := [] }

/-- A world where the finished package cannot be opened for hashing. -/
def hashFailWorld : World := { sampleWorld with hashReadable := false }

/-- C2 counterexample: the claim says a failure at step (5), archive
writing, leaves no partial output file.  In the code the zip archive is
opened directly at the output path and is not removed when writing its
members fails: on this concrete world the build returns failure *and* a
partially written archive sits at the output path, which held no file
before the call. -/
theorem c2_partial_artifact_counterexample :
    fsLookup zipFailWorld.files "Releases/LuminariGUI-v1.2.3.mpackage" = none
    ∧ ((createMpackage zipFailWorld "LuminariGUI.xml" (some "1.2.3") false).map
        (fun r => (r.1, fsLookup r.2.1.files "Releases/LuminariGUI-v1.2.3.mpackage")))
      = some (false, some FileData.archivePartial) := by
  refine ⟨by decide, by decide⟩

/-- C2 (amended): a failure at step (1), source-document validation,
aborts with no change at all; a failure at step (4), descriptor creation,
aborts leaving the output path exactly as it was (no artifact is created);
but a failure at step (5), archive writing, aborts leaving a *partially
written archive at the output path* — the open-at-final-path zip file is
not removed on error. -/
theorem c2_build_failure_partial_artifact (w : World) (xmlFile v : String) :
    (validateXmlExists w xmlFile = false →
      createMpackage w xmlFile (some v) false = some (false, w, []))
    ∧ (validateXmlExists w xmlFile = true → w.copyXmlOk = true → w.configWriteOk = false →
      ((createMpackage w xmlFile (some v) false).map
        (fun r => (r.1, fsLookup r.2.1.files ("Releases/LuminariGUI-v" ++ v ++ ".mpackage"))))
        = some (false, fsLookup w.files ("Releases/LuminariGUI-v" ++ v ++ ".mpackage")))
    ∧ (validateXmlExists w xmlFile = true → w.copyXmlOk = true → w.configWriteOk = true →
       w.zipOpenOk = true → w.zipWriteOk = false →
      ((createMpackage w xmlFile (some v) false).map
        (fun r => (r.1, fsLookup r.2.1.files ("Releases/LuminariGUI-v" ++ v ++ ".mpackage"))))
        = some (false, some FileData.archivePartial)) := by
  refine ⟨?_, ?_, ?_⟩
  · intro hv
    simp [createMpackage, hv]
  · intro hv hcopy hconf
    by_cases hr : pathExists w "Releases" <;>
      simp [createMpackage, setupReleasesDir, hv, hcopy, hconf, hr]
  · intro hv hcopy hconf hopen hzip
    by_cases hr : pathExists w "Releases" <;>
      simp [createMpackage, setupReleasesDir, hv, hcopy, hconf, hopen, hzip, hr,
        writeFile, releasePath_eq, fsLookup_store_self]

theorem c2_build_failure_partial_artifact_witness :
    createMpackage noXmlWorld "LuminariGUI.xml" (some "1.2.3") false
      = some (false, noXmlWorld, [])
    ∧ ((createMpackage zipFailWorld "LuminariGUI.xml" (some "1.2.3") false).map
        (fun r => (r.1, fsLookup r.2.1.files "Releases/LuminariGUI-v1.2.3.mpackage")))
      = some (false, some FileData.archivePartial) :=
  ⟨(c2_build_failure_partial_artifact noXmlWorld "LuminariGUI.xml" "1.2.3").1 (by decide),
   (c2_build_failure_partial_artifact zipFailWorld "LuminariGUI.xml" "1.2.3").2.2
     (by decide) (by decide) (by decide) (by decide) (by decide)⟩

/-- C10: metadata generation is total — every field other than the hash
is always filled in (version, build kind, creation time, package file
name, byte size), an uncomputable content hash yields `sha256 = none`
rather than an exception, and a build whose hashing fails still writes
the metadata record with a null hash and reports success. -/
theorem c10_metadata_total_with_null_hash (w : World) (xmlFile v p : String) (isDev : Bool) :
    ((createReleaseMetadata w v p isDev).version = v
      ∧ (createReleaseMetadata w v p isDev).mtype
          = (if isDev then "development" else "release")
      ∧ (createReleaseMetadata w v p isDev).created = w.now
      ∧ (createReleaseMetadata w v p isDev).packageFile = basename p
      ∧ (createReleaseMetadata w v p isDev).fileSize = w.outSize)
    ∧ (w.hashReadable = false → (createReleaseMetadata w v p isDev).sha256 = none)
    ∧ (validateXmlExists w xmlFile = true → w.copyXmlOk = true → w.configWriteOk = true →
       w.zipOpenOk = true → w.zipWriteOk = true → w.metaWriteOk = true →
       w.hashReadable = false →
        ∃ md : Metadata,
          ((createMpackage w xmlFile (some v) false).map
            (fun r => (r.1,
              fsLookup r.2.1.files (jsonOf ("Releases/LuminariGUI-v" ++ v ++ ".mpackage")))))
            = some (true, some (FileData.metaFile md))
          ∧ md.sha256 = none ∧ md.version = v ∧ md.fileSize = w.outSize
          ∧ md.mtype = "release" ∧ md.created = w.now) := by
  refine ⟨⟨rfl, rfl, rfl, rfl, rfl⟩, ?_, ?_⟩
  · intro hh
    simp [createReleaseMetadata, calculateFileHash, hh]
  · intro hv hcopy hconf hopen hzip hmeta hh
    by_cases hr : pathExists w "Releases"
    · refine ⟨createReleaseMetadata
          (writeFile w ("Releases/" ++ ("LuminariGUI-v" ++ v ++ ".mpackage")) .archiveFull)
          v ("Releases/" ++ ("LuminariGUI-v" ++ v ++ ".mpackage")) false,
        ?_, ?_, rfl, rfl, rfl, rfl⟩
      · simp [createMpackage, setupReleasesDir, hv, hcopy, hconf, hopen, hzip, hmeta, hr,
          writeFile, releasePath_eq, fsLookup_store_self]
      · simp [createReleaseMetadata, calculateFileHash, writeFile, fsLookup_store_self, hh]
    · refine ⟨createReleaseMetadata
          (writeFile { w with dirs := "Releases" :: w.dirs }
            ("Releases/" ++ ("LuminariGUI-v" ++ v ++ ".mpackage")) .archiveFull)
          v ("Releases/" ++ ("LuminariGUI-v" ++ v ++ ".mpackage")) false,
        ?_, ?_, rfl, rfl, rfl, rfl⟩
      · simp [createMpackage, setupReleasesDir, hv, hcopy, hconf, hopen, hzip, hmeta, hr,
          writeFile, releasePath_eq, fsLookup_store_self]
      · simp [createReleaseMetadata, calculateFileHash, writeFile, fsLookup_store_self, hh]

theorem c10_metadata_total_with_null_hash_witness :
    (createReleaseMetadata hashFailWorld "1.2.3"
        "Releases/LuminariGUI-v1.2.3.mpackage" false).sha256 = none
    ∧ (∃ md : Metadata,
        ((createMpackage hashFailWorld "LuminariGUI.xml" (some "1.2.3") false).map
          (fun r => (r.1,
            fsLookup r.2.1.files (jsonOf "Releases/LuminariGUI-v1.2.3.mpackage"))))
          = some (true, some (FileData.metaFile md))
        ∧ md.sha256 = none ∧ md.version = "1.2.3" ∧ md.fileSize = hashFailWorld.outSize
        ∧ md.mtype = "release" ∧ md.created = hashFailWorld.now) :=
  ⟨(c10_metadata_total_with_null_hash hashFailWorld "LuminariGUI.xml" "1.2.3"
      "Releases/LuminariGUI-v1.2.3.mpackage" false).2.1 rfl,
   (c10_metadata_total_with_null_hash hashFailWorld "LuminariGUI.xml" "1.2.3"
      "Releases/LuminariGUI-v1.2.3.mpackage" false).2.2
     (by decide) (by decide) (by decide) (by decide) (by decide) (by decide) rfl⟩

end LuminariGUI

namespace LuminariGUI

/-! ## Claim C5: development-package retention -/

/-- Modelled from the spec: a *full-name* match of the dev naming
convention `LuminariGUI-v<ver>-dev-<YYYYMMDD>-<HHMMSS>.mpackage` (the
name ends right after `.mpackage`).  The code instead uses `re.match`,
which accepts any extension of this prefix; this definition exists to
state that divergence. -/
def devNameFullMatch (name : String) : Bool :=
  match dropLead "LuminariGUI-v".toList name.toList with
  | none => false
  | some r1 =>
    match r1.span (fun c => c.isDigit || c = '.') with
    | (ver, r2) =>
      if ver.isEmpty then false else
      match dropLead "-dev-".toList r2 with
      | none => false
      | some r3 =>
        let date := r3.take 8
        let r4 := r3.drop 8
        if date.length = 8 ∧ date.all Char.isDigit then
          match r4 with
          | '-' :: r5 =>
            let time := r5.take 6
            let r6 := r5.drop 6
            if time.length = 6 ∧ time.all Char.isDigit then
              match dropLead ".mpackage".toList r6 with
              | some [] => true
              | _ => false
            else false
          | _ => false
        else false

/-- The `(timestamp, name)` pairs the listing loop collects, assuming
every embedded timestamp is valid. -/
def devsOf (listing : List String) : List (Nat × String) :=
  listing.filterMap (fun n => (devNameKey n).map (fun k => (k, n)))

/-- The package names removed by a retention pass with `keep`. -/
def removedPkgs (listing : List String) (keep : Nat) : List String :=
  ((sortDesc (devsOf listing)).drop keep).map (fun p => p.2)

/-- C5 counterexample: the claim says a file whose name does not match
the dev naming convention is never removed.  The pattern is matched with
`re.match` (prefix-anchored only), so the stale copy
`…-20240101-120000.mpackage.bak` — not a package by the convention —
still matches, sorts oldest, and is removed by a `keep = 3` pass over
four files. -/
theorem c5_prefix_match_counterexample :
    devNameFullMatch "LuminariGUI-v1.0.0-dev-20240101-120000.mpackage.bak" = false
    ∧ cleanupResult
        ["LuminariGUI-v1.0.0-dev-20240104-120000.mpackage",
         "LuminariGUI-v1.0.0-dev-20240103-120000.mpackage",
         "LuminariGUI-v1.0.0-dev-20240102-120000.mpackage",
         "LuminariGUI-v1.0.0-dev-20240101-120000.mpackage.bak"] 3
      = some
        ["LuminariGUI-v1.0.0-dev-20240104-120000.mpackage",
         "LuminariGUI-v1.0.0-dev-20240103-120000.mpackage",
         "LuminariGUI-v1.0.0-dev-20240102-120000.mpackage"] := by
  refine ⟨by decide, by decide⟩

end LuminariGUI

namespace LuminariGUI

/-! ### Sorting lemmas for the retention pass -/

theorem insDesc_perm (a : Nat × String) (l : List (Nat × String)) :
    (insDesc a l).Perm (a :: l) := by
  induction l with
  | nil => exact List.Perm.refl _
  | cons b t ih =>
    by_cases h : a.1 < b.1
    · simp only [insDesc, if_pos h]
      exact (ih.cons b).trans (List.Perm.swap a b t)
    · simp only [insDesc, if_neg h]
      exact List.Perm.refl _

theorem mem_insDesc {x a : Nat × String} {l : List (Nat × String)} :
    x ∈ insDesc a l ↔ x = a ∨ x ∈ l := by
  rw [(insDesc_perm a l).mem_iff]
  simp

theorem insDesc_pairwise {a : Nat × String} {l : List (Nat × String)}
    (h : l.Pairwise (fun x y => y.1 ≤ x.1)) :
    (insDesc a l).Pairwise (fun x y => y.1 ≤ x.1) := by
  induction l with
  | nil => simp [insDesc]
  | cons b t ih =>
    rcases List.pairwise_cons.mp h with ⟨hb, ht⟩
    by_cases hab : a.1 < b.1
    · simp only [insDesc, if_pos hab]
      refine List.pairwise_cons.mpr ⟨?_, ih ht⟩
      intro x hx
      rcases mem_insDesc.mp hx with rfl | hxt
      · exact Nat.le_of_lt hab
      · exact hb x hxt
    · simp only [insDesc, if_neg hab]
      refine List.pairwise_cons.mpr ⟨?_, h⟩
      intro x hx
      rcases List.mem_cons.mp hx with rfl | hxt
      · exact Nat.le_of_not_lt hab
      · exact Nat.le_trans (hb x hxt) (Nat.le_of_not_lt hab)

theorem sortDesc_perm (l : List (Nat × String)) : (sortDesc l).Perm l := by
  induction l with
  | nil => exact List.Perm.refl _
  | cons a t ih =>
    simp only [sortDesc, List.foldr_cons]
    exact (insDesc_perm a _).trans (ih.cons a)

theorem sortDesc_pairwise (l : List (Nat × String)) :
    (sortDesc l).Pairwise (fun x y => y.1 ≤ x.1) := by
  induction l with
  | nil => simp [sortDesc]
  | cons a t ih =>
    simp only [sortDesc, List.foldr_cons] at ih ⊢
    exact insDesc_pairwise ih

theorem sortDesc_strict (l : List (Nat × String))
    (hnd : ((sortDesc l).map Prod.fst).Nodup) :
    (sortDesc l).Pairwise (fun x y => y.1 < x.1) := by
  have h1 := sortDesc_pairwise l
  have h2 : (sortDesc l).Pairwise (fun x y => x.1 ≠ y.1) := List.pairwise_map.mp hnd
  exact (h1.and h2).imp (fun h => Nat.lt_of_le_of_ne h.1 h.2.symm)

theorem count_ge_of_mem_drop {S : List (Nat × String)}
    (hs : S.Pairwise (fun p q => q.1 < p.1)) :
    ∀ {k : Nat} {x : Nat × String}, x ∈ S.drop k →
      k ≤ (S.filter (fun p => decide (x.1 < p.1))).length := by
  induction S with
  | nil => intro k x hx; simp at hx
  | cons a T ih =>
    intro k x hx
    rcases List.pairwise_cons.mp hs with ⟨ha, hT⟩
    cases k with
    | zero => exact Nat.zero_le _
    | succ k' =>
      simp only [List.drop_succ_cons] at hx
      have hxT : x ∈ T := List.drop_subset k' T hx
      have hlt : x.1 < a.1 := ha x hxT
      have hd : decide (x.1 < a.1) = true := by simp [hlt]
      rw [List.filter_cons, hd]
      simpa using Nat.succ_le_succ (ih hT hx)

theorem count_lt_of_mem_take {S : List (Nat × String)}
    (hs : S.Pairwise (fun p q => q.1 < p.1)) :
    ∀ {k : Nat} {x : Nat × String}, x ∈ S.take k →
      (S.filter (fun p => decide (x.1 < p.1))).length < k := by
  induction S with
  | nil => intro k x hx; simp at hx
  | cons a T ih =>
    intro k x hx
    rcases List.pairwise_cons.mp hs with ⟨ha, hT⟩
    cases k with
    | zero => simp at hx
    | succ k' =>
      simp only [List.take_succ_cons] at hx
      rcases List.mem_cons.mp hx with rfl | hxtake
      · have hnil : T.filter (fun p => decide (x.1 < p.1)) = [] := by
          rw [List.filter_eq_nil_iff]
          intro p hp
          simp only [decide_eq_true_eq]
          exact Nat.not_lt.mpr (Nat.le_of_lt (ha p hp))
        simp [List.filter_cons, hnil]
      · have hxT : x ∈ T := List.take_subset _ _ hxtake
        have hlt : x.1 < a.1 := ha x hxT
        have hd : decide (x.1 < a.1) = true := by simp [hlt]
        rw [List.filter_cons, hd]
        simpa using Nat.succ_lt_succ (ih hT hxtake)

/-! ### The collected dev list -/

theorem collectDev_eq (listing : List String)
    (hvalid : ∀ m ∈ listing, ∀ v d t, parseDevName m = some (v, d, t) →
      (strptimeKey d t).isSome = true) :
    collectDev listing = some (devsOf listing) := by
  induction listing with
  | nil => rfl
  | cons n t ih =>
    have ih' := ih (fun m hm v d tm hp => hvalid m (List.mem_cons_of_mem n hm) v d tm hp)
    cases hp : parseDevName n with
    | none =>
      have hred : devsOf (n :: t) = devsOf t := by
        simp [devsOf, devNameKey, List.filterMap_cons, hp]
      simp only [collectDev, hp, ih', hred]
    | some vdt =>
      obtain ⟨v, d, tm⟩ := vdt
      have hk := hvalid n (List.mem_cons_self n t) v d tm hp
      cases hks : strptimeKey d tm with
      | none => rw [hks] at hk; simp at hk
      | some k =>
        have hred : devsOf (n :: t) = (k, n) :: devsOf t := by
          simp [devsOf, devNameKey, List.filterMap_cons, hp, hks]
        simp only [collectDev, hp, hks, ih', hred]

theorem devsOf_map_fst (listing : List String) :
    (devsOf listing).map Prod.fst = listing.filterMap devNameKey := by
  induction listing with
  | nil => rfl
  | cons n t ih =>
    cases hk : devNameKey n with
    | none =>
      have hred : devsOf (n :: t) = devsOf t := by
        simp [devsOf, List.filterMap_cons, hk]
      rw [hred, ih, List.filterMap_cons, hk]
    | some k =>
      have hred : devsOf (n :: t) = (k, n) :: devsOf t := by
        simp [devsOf, List.filterMap_cons, hk]
      rw [hred, List.map_cons, ih, List.filterMap_cons, hk]

theorem mem_devsOf {listing : List String} {k : Nat} {n : String} :
    (k, n) ∈ devsOf listing ↔ n ∈ listing ∧ devNameKey n = some k := by
  induction listing with
  | nil => simp [devsOf]
  | cons m t ih =>
    cases hk : devNameKey m with
    | none =>
      have hred : devsOf (m :: t) = devsOf t := by
        simp [devsOf, List.filterMap_cons, hk]
      rw [hred]
      constructor
      · intro h
        have := ih.mp h
        exact ⟨List.mem_cons_of_mem _ this.1, this.2⟩
      · rintro ⟨hmem, hkey⟩
        rcases List.mem_cons.mp hmem with rfl | hmem'
        · rw [hkey] at hk; cases hk
        · exact ih.mpr ⟨hmem', hkey⟩
    | some k' =>
      have hred : devsOf (m :: t) = (k', m) :: devsOf t := by
        simp [devsOf, List.filterMap_cons, hk]
      rw [hred]
      constructor
      · intro h
        rcases List.mem_cons.mp h with heq | hmem'
        · rw [Prod.mk.injEq] at heq
          obtain ⟨rfl, rfl⟩ := heq
          exact ⟨List.mem_cons_self _ _, hk⟩
        · have := ih.mp hmem'
          exact ⟨List.mem_cons_of_mem _ this.1, this.2⟩
      · rintro ⟨hmem, hkey⟩
        rcases List.mem_cons.mp hmem with rfl | hmem'
        · rw [hkey] at hk
          obtain rfl := Option.some.inj hk
          exact List.mem_cons_self _ _
        · exact List.mem_cons_of_mem _ (ih.mpr ⟨hmem', hkey⟩)

end LuminariGUI

namespace LuminariGUI

/-- C5 (amended): the dev-package pattern is matched as a *prefix*
(`re.match`), so any file whose name extends a dev package name is also
treated as one (see the counterexample).  For a listing of distinct names
whose prefix-matching entries all embed valid, pairwise-distinct
timestamps, a retention pass completes and: at most `keep`
pattern-matching packages remain; a pattern-matching package remains
exactly when fewer than `keep` matching packages embed a more recent
timestamp (and it is not also the metadata name of a removed package); a
file matching the pattern nowhere is removed only if it is the metadata
name of a removed package; and every removed package's metadata name is
gone from the listing. -/
theorem c5_retention_amended (listing : List String) (keep : Nat) (n : String)
    (hvalid : ∀ m ∈ listing, (parseDevName m).isSome = true →
      (devNameKey m).isSome = true)
    (hkeys : (listing.filterMap devNameKey).Nodup)
    (hnodup : listing.Nodup)
    (hn : n ∈ listing) :
    ∃ L', cleanupResult listing keep = some L'
      ∧ (L'.filter (fun m => (devNameKey m).isSome)).length ≤ keep
      ∧ (∀ k, devNameKey n = some k →
          (n ∈ L' ↔
            ((listing.filterMap devNameKey).filter (fun k2 => decide (k < k2))).length < keep
            ∧ ∀ p ∈ removedPkgs listing keep, jsonOf p ≠ n))
      ∧ (devNameKey n = none →
          (∀ p ∈ removedPkgs listing keep, jsonOf p ≠ n) → n ∈ L')
      ∧ (∀ p ∈ removedPkgs listing keep, jsonOf p ∉ L') := by
  have hvalid' : ∀ m ∈ listing, ∀ v d t, parseDevName m = some (v, d, t) →
      (strptimeKey d t).isSome = true := by
    intro m hm v d t hp
    have h := hvalid m hm (by simp [hp])
    simpa [devNameKey, hp] using h
  have hperm : (sortDesc (devsOf listing)).Perm (devsOf listing) := sortDesc_perm _
  have hmapperm : ((sortDesc (devsOf listing)).map Prod.fst).Perm
      (listing.filterMap devNameKey) := by
    rw [← devsOf_map_fst]
    exact hperm.map _
  have hnd_fst : ((sortDesc (devsOf listing)).map Prod.fst).Nodup :=
    hmapperm.nodup_iff.mpr hkeys
  have hstrict : (sortDesc (devsOf listing)).Pairwise (fun p q => q.1 < p.1) :=
    sortDesc_strict _ hnd_fst
  have hremP : ∀ {m : String}, m ∈ removedPkgs listing keep ↔
      ∃ p ∈ (sortDesc (devsOf listing)).drop keep, p.2 = m := by
    intro m
    unfold removedPkgs
    exact List.mem_map
  have hcount : ∀ kk : Nat,
      ((listing.filterMap devNameKey).filter (fun k2 => decide (kk < k2))).length
        = ((sortDesc (devsOf listing)).filter (fun p => decide (kk < p.1))).length := by
    intro kk
    calc ((listing.filterMap devNameKey).filter (fun k2 => decide (kk < k2))).length
        = (((sortDesc (devsOf listing)).map Prod.fst).filter
            (fun k2 => decide (kk < k2))).length :=
          ((hmapperm.filter _).length_eq).symm
      _ = ((sortDesc (devsOf listing)).filter (fun p => decide (kk < p.1))).length := by
          rw [List.filter_map, List.length_map]
          rfl
  have hmem : ∀ m : String,
      m ∈ listing.filter (fun m' =>
        !((removedPkgs listing keep ++ (removedPkgs listing keep).map jsonOf).contains m')) ↔
      m ∈ listing ∧ m ∉ removedPkgs listing keep ∧
        ∀ p ∈ removedPkgs listing keep, jsonOf p ≠ m := by
    intro m
    rw [List.mem_filter]
    simp [List.mem_append, not_or, List.mem_map]
  have htakeOf : ∀ {k : Nat} {m : String}, (k, m) ∈ sortDesc (devsOf listing) →
      m ∉ removedPkgs listing keep →
      (k, m) ∈ (sortDesc (devsOf listing)).take keep := by
    intro k m hSm hnotP
    have hx : (k, m) ∈ ((sortDesc (devsOf listing)).take keep
        ++ (sortDesc (devsOf listing)).drop keep) := by
      rw [List.take_append_drop]
      exact hSm
    rcases List.mem_append.mp hx with h | h
    · exact h
    · exact absurd (hremP.mpr ⟨(k, m), h, rfl⟩) hnotP
  refine ⟨listing.filter (fun m' =>
      !((removedPkgs listing keep ++ (removedPkgs listing keep).map jsonOf).contains m')),
    ?_, ?_, ?_, ?_, ?_⟩
  · -- the pass completes with exactly this listing
    unfold cleanupResult cleanupRemovals
    rw [collectDev_eq listing hvalid']
    simp only [removedPkgs, List.map_map, Option.some.injEq]
    congr 1
  · -- at most `keep` pattern-matching packages remain
    have hsubset : ∀ m ∈ (listing.filter (fun m' =>
          !((removedPkgs listing keep ++ (removedPkgs listing keep).map jsonOf).contains m'))).filter
            (fun m' => (devNameKey m').isSome),
        m ∈ ((sortDesc (devsOf listing)).take keep).map (fun p => p.2) := by
      intro m hm
      obtain ⟨hmL, hdev⟩ := List.mem_filter.mp hm
      obtain ⟨k, hk⟩ := Option.isSome_iff_exists.mp hdev
      obtain ⟨hmlist, hnotP, -⟩ := (hmem m).mp hmL
      have hSm : (k, m) ∈ sortDesc (devsOf listing) :=
        hperm.mem_iff.mpr (mem_devsOf.mpr ⟨hmlist, hk⟩)
      exact List.mem_map.mpr ⟨(k, m), htakeOf hSm hnotP, rfl⟩
    have hnd : ((listing.filter (fun m' =>
        !((removedPkgs listing keep ++ (removedPkgs listing keep).map jsonOf).contains m'))).filter
          (fun m' => (devNameKey m').isSome)).Nodup :=
      (hnodup.filter _).filter _
    refine le_trans (List.subperm_of_subset hnd hsubset).length_le ?_
    rw [List.length_map]
    exact List.length_take_le _ _
  · -- pattern-matching file: kept iff among the `keep` most recent
    intro k hk
    have hSn : (k, n) ∈ sortDesc (devsOf listing) :=
      hperm.mem_iff.mpr (mem_devsOf.mpr ⟨hn, hk⟩)
    constructor
    · intro hmemL
      obtain ⟨-, hnotP, hjson⟩ := (hmem n).mp hmemL
      refine ⟨?_, hjson⟩
      have := count_lt_of_mem_take hstrict (htakeOf hSn hnotP)
      rw [hcount k]
      simpa using this
    · rintro ⟨hcountlt, hjson⟩
      refine (hmem n).mpr ⟨hn, ?_, hjson⟩
      intro hP
      obtain ⟨p, hpdrop, hpsnd⟩ := hremP.mp hP
      obtain ⟨pk, pn⟩ := p
      cases hpsnd
      have hkey' := (mem_devsOf.mp (hperm.mem_iff.mp
        (List.drop_subset _ _ hpdrop))).2
      rw [hk] at hkey'
      have hkk := Option.some.inj hkey'
      subst hkk
      have hge := count_ge_of_mem_drop hstrict hpdrop
      rw [hcount k] at hcountlt
      simp only at hge
      omega
  · -- a file that does not match the pattern is only ever removed as the
    -- metadata of a removed package
    intro hk hjson
    refine (hmem n).mpr ⟨hn, ?_, hjson⟩
    intro hP
    obtain ⟨p, hpdrop, hpsnd⟩ := hremP.mp hP
    obtain ⟨pk, pn⟩ := p
    cases hpsnd
    have hkey' := (mem_devsOf.mp (hperm.mem_iff.mp
      (List.drop_subset _ _ hpdrop))).2
    rw [hk] at hkey'
    cases hkey'
  · -- every removed package's metadata name is gone
    intro p hp hcontra
    obtain ⟨-, -, hjson⟩ := (hmem _).mp hcontra
    exact hjson p hp rfl

end LuminariGUI

namespace LuminariGUI

theorem c5_retention_amended_witness :
    ∃ L', cleanupResult
        ["LuminariGUI-v1.0.0-dev-20240104-120000.mpackage",
         "LuminariGUI-v1.0.0-dev-20240103-120000.mpackage",
         "LuminariGUI-v1.0.0-dev-20240102-120000.mpackage",
         "LuminariGUI-v1.0.0-dev-20240101-120000.mpackage",
         "README.md"] 3 = some L'
      ∧ (L'.filter (fun m => (devNameKey m).isSome)).length ≤ 3
      ∧ (∀ k, devNameKey "LuminariGUI-v1.0.0-dev-20240101-120000.mpackage" = some k →
          ("LuminariGUI-v1.0.0-dev-20240101-120000.mpackage" ∈ L' ↔
            ((["LuminariGUI-v1.0.0-dev-20240104-120000.mpackage",
               "LuminariGUI-v1.0.0-dev-20240103-120000.mpackage",
               "LuminariGUI-v1.0.0-dev-20240102-120000.mpackage",
               "LuminariGUI-v1.0.0-dev-20240101-120000.mpackage",
               "README.md"].filterMap devNameKey).filter
                 (fun k2 => decide (k < k2))).length < 3
            ∧ ∀ p ∈ removedPkgs
                ["LuminariGUI-v1.0.0-dev-20240104-120000.mpackage",
                 "LuminariGUI-v1.0.0-dev-20240103-120000.mpackage",
                 "LuminariGUI-v1.0.0-dev-20240102-120000.mpackage",
                 "LuminariGUI-v1.0.0-dev-20240101-120000.mpackage",
                 "README.md"] 3,
              jsonOf p ≠ "LuminariGUI-v1.0.0-dev-20240101-120000.mpackage"))
      ∧ (devNameKey "LuminariGUI-v1.0.0-dev-20240101-120000.mpackage" = none →
          (∀ p ∈ removedPkgs
              ["LuminariGUI-v1.0.0-dev-20240104-120000.mpackage",
               "LuminariGUI-v1.0.0-dev-20240103-120000.mpackage",
               "LuminariGUI-v1.0.0-dev-20240102-120000.mpackage",
               "LuminariGUI-v1.0.0-dev-20240101-120000.mpackage",
               "README.md"] 3,
            jsonOf p ≠ "LuminariGUI-v1.0.0-dev-20240101-120000.mpackage") →
          "LuminariGUI-v1.0.0-dev-20240101-120000.mpackage" ∈ L')
      ∧ (∀ p ∈ removedPkgs
            ["LuminariGUI-v1.0.0-dev-20240104-120000.mpackage",
             "LuminariGUI-v1.0.0-dev-20240103-120000.mpackage",
             "LuminariGUI-v1.0.0-dev-20240102-120000.mpackage",
             "LuminariGUI-v1.0.0-dev-20240101-120000.mpackage",
             "README.md"] 3,
          jsonOf p ∉ L') :=
  c5_retention_amended
    ["LuminariGUI-v1.0.0-dev-20240104-120000.mpackage",
     "LuminariGUI-v1.0.0-dev-20240103-120000.mpackage",
     "LuminariGUI-v1.0.0-dev-20240102-120000.mpackage",
     "LuminariGUI-v1.0.0-dev-20240101-120000.mpackage",
     "README.md"] 3 "LuminariGUI-v1.0.0-dev-20240101-120000.mpackage"
    (by decide) (by decide) (by decide) (by decide)

end LuminariGUI
